import Mathlib

/-!
Verification of the Citadel CLI core (circuit breaker, concurrency limiter,
process supervisor, stale-while-revalidate cache) against its specification.

The TypeScript classes are shallowly embedded as pure Lean functions over
explicit state records.  The single-threaded event-loop semantics of the
source is modelled as a deterministic step function over an event alphabet:
each event corresponds to one synchronous span of JavaScript execution
(a call to a public method, or the completion callback of an asynchronous
operation firing).  Timestamps (Date.now()) are passed in as explicit
natural-number arguments; arithmetic on them is done in Int, mirroring
JavaScript number subtraction.
-/

/-! ## Circuit breaker (src/cli/circuitBreaker.ts) -/

/-- The three states of the breaker, named after the string literals of the
source type CircuitState. -/
inductive CircuitState
  | CLOSED
  | OPEN
  | HALF_OPEN
deriving DecidableEq, Repr

/-- State of one CircuitBreaker instance: the two readonly constructor
parameters (threshold, resetTimeMs) plus the four mutable fields. -/
structure CircuitBreaker where
  threshold : Nat
  resetTimeMs : Nat
  state : CircuitState
  failureCount : Nat
  lastFailureTime : Nat
  successCount : Nat
deriving DecidableEq, Repr

/-- The fixed halfOpenSuccessThreshold field of the source. -/
def halfOpenSuccessThreshold : Nat := 2

/-- A freshly constructed breaker: CLOSED with all counters zero. -/
def CircuitBreaker.mk0 (threshold resetTimeMs : Nat) : CircuitBreaker :=
  { threshold := threshold, resetTimeMs := resetTimeMs, state := .CLOSED,
    failureCount := 0, lastFailureTime := 0, successCount := 0 }

/-- canExecute(), with Date.now() passed as the argument now.  The source's
early returns become an if chain.  Returns the possibly updated breaker
(the lazy OPEN to HALF_OPEN transition) together with the boolean answer. -/
def CircuitBreaker.canExecute (b : CircuitBreaker) (now : Nat) :
    CircuitBreaker × Bool :=
  if b.state = .CLOSED then (b, true)
  else if b.state = .OPEN then
    if (now : Int) - (b.lastFailureTime : Int) ≥ (b.resetTimeMs : Int) then
      ({ b with state := .HALF_OPEN, successCount := 0 }, true)
    else
      (b, false)
  else
    -- HALF_OPEN
    (b, true)

/-- reset(): force CLOSED and zero every mutable field. -/
def CircuitBreaker.reset (b : CircuitBreaker) : CircuitBreaker :=
  { b with state := .CLOSED, failureCount := 0, successCount := 0,
           lastFailureTime := 0 }

/-- recordSuccess(); the source increments successCount first, so the
threshold test reads successCount + 1 here. -/
def CircuitBreaker.recordSuccess (b : CircuitBreaker) : CircuitBreaker :=
  if b.state = .HALF_OPEN then
    if b.successCount + 1 ≥ halfOpenSuccessThreshold then
      ({ b with successCount := b.successCount + 1 }).reset
    else
      { b with successCount := b.successCount + 1 }
  else if b.state = .CLOSED then
    { b with failureCount := 0 }
  else
    b

/-- recordFailure(), with Date.now() passed as the argument now; the
increment of failureCount and the lastFailureTime stamp happen before the
state checks, so the threshold test reads failureCount + 1 here. -/
def CircuitBreaker.recordFailure (b : CircuitBreaker) (now : Nat) :
    CircuitBreaker :=
  if b.state = .HALF_OPEN then
    { b with failureCount := b.failureCount + 1, lastFailureTime := now,
             state := .OPEN }
  else if b.failureCount + 1 ≥ b.threshold then
    { b with failureCount := b.failureCount + 1, lastFailureTime := now,
             state := .OPEN }
  else
    { b with failureCount := b.failureCount + 1, lastFailureTime := now }

/-- A sequence of consecutive recordFailure() calls at the given times. -/
def CircuitBreaker.recordFailures (b : CircuitBreaker) (ts : List Nat) :
    CircuitBreaker :=
  ts.foldl (fun b t => b.recordFailure t) b

/-! Helper lemmas about the breaker. -/

theorem CircuitBreaker.recordFailure_closed_parts (b : CircuitBreaker)
    (t : Nat) (hs : b.state = .CLOSED) (hc : b.failureCount + 1 < b.threshold) :
    (b.recordFailure t).state = .CLOSED ∧
    (b.recordFailure t).failureCount = b.failureCount + 1 ∧
    (b.recordFailure t).threshold = b.threshold := by
  unfold CircuitBreaker.recordFailure
  rw [if_neg (by simp [hs]), if_neg (by omega)]
  exact ⟨hs, rfl, rfl⟩

theorem CircuitBreaker.recordFailure_trips (b : CircuitBreaker) (t : Nat)
    (hs : b.state = .CLOSED) (hc : b.failureCount + 1 ≥ b.threshold) :
    (b.recordFailure t).state = .OPEN := by
  unfold CircuitBreaker.recordFailure
  rw [if_neg (by simp [hs]), if_pos hc]

theorem CircuitBreaker.recordFailure_open (b : CircuitBreaker) (t : Nat)
    (hs : b.state = .OPEN) : (b.recordFailure t).state = .OPEN := by
  unfold CircuitBreaker.recordFailure
  rw [if_neg (by simp [hs])]
  split
  · rfl
  · exact hs

theorem CircuitBreaker.recordFailures_closed (ts : List Nat) :
    ∀ (b : CircuitBreaker), b.state = .CLOSED →
    b.failureCount + ts.length < b.threshold →
    ((b.recordFailures ts).state = .CLOSED ∧
     (b.recordFailures ts).failureCount = b.failureCount + ts.length ∧
     (b.recordFailures ts).threshold = b.threshold) := by
  induction ts with
  | nil => intro b hs _; exact ⟨hs, rfl, rfl⟩
  | cons t rest ih =>
    intro b hs hc
    have hc1 : b.failureCount + 1 < b.threshold := by
      simp only [List.length_cons] at hc; omega
    obtain ⟨p1, p2, p3⟩ := b.recordFailure_closed_parts t hs hc1
    have := ih (b.recordFailure t) p1
      (by rw [p2, p3]; simp only [List.length_cons] at hc; omega)
    simp only [CircuitBreaker.recordFailures, List.foldl_cons] at this ⊢
    refine ⟨this.1, ?_, ?_⟩
    · rw [this.2.1, p2]; simp only [List.length_cons]; omega
    · rw [this.2.2, p3]

theorem CircuitBreaker.recordFailures_open (ts : List Nat) :
    ∀ (b : CircuitBreaker), b.state = .OPEN →
    (b.recordFailures ts).state = .OPEN := by
  induction ts with
  | nil => intro b hs; exact hs
  | cons t rest ih =>
    intro b hs
    simp only [CircuitBreaker.recordFailures, List.foldl_cons] at ih ⊢
    exact ih (b.recordFailure t) (b.recordFailure_open t hs)

theorem CircuitBreaker.recordFailures_trips (ts : List Nat) :
    ∀ (b : CircuitBreaker), b.state = .CLOSED →
    b.failureCount + ts.length = b.threshold → 1 ≤ ts.length →
    (b.recordFailures ts).state = .OPEN := by
  induction ts with
  | nil => intro b _ _ h; simp at h
  | cons t rest ih =>
    intro b hs hc _
    simp only [CircuitBreaker.recordFailures, List.foldl_cons] at ih ⊢
    by_cases hr : rest.length = 0
    · -- the current call is the threshold-th failure: it trips the breaker
      have htrip : (b.recordFailure t).state = .OPEN :=
        b.recordFailure_trips t hs
          (by simp only [List.length_cons, hr] at hc; omega)
      exact CircuitBreaker.recordFailures_open rest _ htrip
    · have hc1 : b.failureCount + 1 < b.threshold := by
        simp only [List.length_cons] at hc; omega
      obtain ⟨p1, p2, p3⟩ := b.recordFailure_closed_parts t hs hc1
      exact ih (b.recordFailure t) p1
        (by rw [p2, p3]; simp only [List.length_cons] at hc; omega)
        (by omega)

/-- C3: from a fresh breaker with threshold N (N at least 1) and reset time T,
fewer than N consecutive recordFailure calls leave the breaker CLOSED and
exactly N put it in OPEN; while OPEN, canExecute at elapsed time below T
returns false and changes nothing, and at elapsed time at least T returns
true and moves the breaker to HALF_OPEN in the same call. -/
theorem circuitBreaker_threshold_and_cooldown (N T : Nat) (hN : 1 ≤ N)
    (ts : List Nat) :
    (ts.length < N →
      ((CircuitBreaker.mk0 N T).recordFailures ts).state = .CLOSED) ∧
    (ts.length = N →
      ((CircuitBreaker.mk0 N T).recordFailures ts).state = .OPEN) ∧
    (∀ b : CircuitBreaker, b.state = .OPEN → b.resetTimeMs = T →
      ∀ now : Nat,
        ((now : Int) - (b.lastFailureTime : Int) < (T : Int) →
          b.canExecute now = (b, false)) ∧
        ((now : Int) - (b.lastFailureTime : Int) ≥ (T : Int) →
          (b.canExecute now).2 = true ∧
          (b.canExecute now).1.state = .HALF_OPEN)) := by
  refine ⟨?_, ?_, ?_⟩
  · intro hlt
    exact (CircuitBreaker.recordFailures_closed ts (CircuitBreaker.mk0 N T)
      rfl (by simpa [CircuitBreaker.mk0] using hlt)).1
  · intro hlen
    exact CircuitBreaker.recordFailures_trips ts (CircuitBreaker.mk0 N T)
      rfl (by simp [CircuitBreaker.mk0, hlen]) (by omega)
  · intro b hs hT now
    unfold CircuitBreaker.canExecute
    rw [if_neg (by simp [hs]), if_pos hs]
    constructor
    · intro hlt
      rw [if_neg (by rw [hT]; omega)]
    · intro hge
      rw [if_pos (by rw [hT]; omega)]
      exact ⟨rfl, rfl⟩

/-- Witness for C3 at N = 2, T = 10000: one failure leaves the breaker
CLOSED, two failures open it, canExecute is false at elapsed 9999 and true
(entering HALF_OPEN) at elapsed 10000. -/
theorem circuitBreaker_threshold_and_cooldown_witness :
    ((CircuitBreaker.mk0 2 10000).recordFailures [5]).state =
      CircuitState.CLOSED ∧
    ((CircuitBreaker.mk0 2 10000).recordFailures [5, 6]).state =
      CircuitState.OPEN ∧
    ((CircuitBreaker.mk0 2 10000).recordFailures [0, 0]).canExecute 9999 =
      ((CircuitBreaker.mk0 2 10000).recordFailures [0, 0], false) ∧
    (((CircuitBreaker.mk0 2 10000).recordFailures [0, 0]).canExecute
      10000).2 = true ∧
    (((CircuitBreaker.mk0 2 10000).recordFailures [0, 0]).canExecute
      10000).1.state = CircuitState.HALF_OPEN := by
  refine ⟨?_, ?_, ?_, ?_, ?_⟩
  · exact (circuitBreaker_threshold_and_cooldown 2 10000 (by decide) [5]).1
      (by decide)
  · exact (circuitBreaker_threshold_and_cooldown 2 10000 (by decide)
      [5, 6]).2.1 (by decide)
  · exact ((circuitBreaker_threshold_and_cooldown 2 10000 (by decide)
      [0, 0]).2.2 _ (by decide) (by decide) 9999).1 (by decide)
  · exact (((circuitBreaker_threshold_and_cooldown 2 10000 (by decide)
      [0, 0]).2.2 _ (by decide) (by decide) 10000).2 (by decide)).1
  · exact (((circuitBreaker_threshold_and_cooldown 2 10000 (by decide)
      [0, 0]).2.2 _ (by decide) (by decide) 10000).2 (by decide)).2

/-- C4: in HALF_OPEN with zero successes so far, a single recordSuccess
leaves the breaker in HALF_OPEN and a second one closes it with every
counter zeroed; a single recordFailure from HALF_OPEN with 0 or 1 prior
successes re-opens the breaker, stamps lastFailureTime, and the partial
success count is discarded: the next canExecute that re-enters HALF_OPEN
starts again from successCount zero. -/
theorem circuitBreaker_halfOpen_recovery :
    (∀ b : CircuitBreaker, b.state = .HALF_OPEN → b.successCount = 0 →
      (b.recordSuccess.state = .HALF_OPEN ∧
       b.recordSuccess.recordSuccess.state = .CLOSED ∧
       b.recordSuccess.recordSuccess.failureCount = 0 ∧
       b.recordSuccess.recordSuccess.successCount = 0 ∧
       b.recordSuccess.recordSuccess.lastFailureTime = 0)) ∧
    (∀ (b : CircuitBreaker) (now : Nat), b.state = .HALF_OPEN →
      b.successCount ≤ 1 →
      ((b.recordFailure now).state = .OPEN ∧
       (b.recordFailure now).lastFailureTime = now ∧
       ∀ now2 : Nat,
         (now2 : Int) - (now : Int) ≥ (b.resetTimeMs : Int) →
         (((b.recordFailure now).canExecute now2).1.successCount = 0 ∧
          ((b.recordFailure now).canExecute now2).1.state = .HALF_OPEN))) := by
  constructor
  · intro b hs hc
    have h1 : b.recordSuccess = { b with successCount := b.successCount + 1 } := by
      unfold CircuitBreaker.recordSuccess
      rw [if_pos hs,
        if_neg (by simp only [halfOpenSuccessThreshold]; omega)]
    have h2 : b.recordSuccess.recordSuccess =
        ({ b with successCount := b.successCount + 1 + 1 }).reset := by
      rw [h1]
      unfold CircuitBreaker.recordSuccess
      rw [if_pos (show ({ b with successCount := b.successCount + 1 } :
            CircuitBreaker).state = .HALF_OPEN from hs),
        if_pos (show b.successCount + 1 + 1 ≥ halfOpenSuccessThreshold by
          simp only [halfOpenSuccessThreshold]; omega)]
    refine ⟨by rw [h1]; exact hs, ?_, ?_, ?_, ?_⟩ <;> rw [h2] <;> rfl
  · intro b now hs _
    have h1 : b.recordFailure now =
        { b with failureCount := b.failureCount + 1, lastFailureTime := now,
                 state := .OPEN } := by
      unfold CircuitBreaker.recordFailure
      rw [if_pos hs]
    refine ⟨by rw [h1], by rw [h1], ?_⟩
    intro now2 hge
    rw [h1]
    unfold CircuitBreaker.canExecute
    rw [if_neg (by simp), if_pos rfl, if_pos (by exact hge)]
    exact ⟨rfl, rfl⟩

/-- Concrete HALF_OPEN breaker with no recorded probe success, for the C4
witness. -/
def cbProbeFresh : CircuitBreaker :=
  { threshold := 3, resetTimeMs := 100, state := .HALF_OPEN,
    failureCount := 7, lastFailureTime := 42, successCount := 0 }

/-- Concrete HALF_OPEN breaker with one recorded probe success, for the C4
witness. -/
def cbProbeOne : CircuitBreaker :=
  { threshold := 3, resetTimeMs := 100, state := .HALF_OPEN,
    failureCount := 7, lastFailureTime := 42, successCount := 1 }

/-- Witness for C4 on a concrete HALF_OPEN breaker: two successes close it
with zeroed counters, while one failure (after one success) re-opens it and
the later re-entry into HALF_OPEN starts from successCount zero. -/
theorem circuitBreaker_halfOpen_recovery_witness :
    cbProbeFresh.recordSuccess.recordSuccess.state = CircuitState.CLOSED ∧
    (cbProbeOne.recordFailure 50).state = CircuitState.OPEN ∧
    ((cbProbeOne.recordFailure 50).canExecute 150).1.successCount =
      0 := by
  refine ⟨?_, ?_, ?_⟩
  · exact (circuitBreaker_halfOpen_recovery.1 _ (by decide) (by decide)).2.1
  · exact (circuitBreaker_halfOpen_recovery.2 _ 50 (by decide)
      (by decide)).1
  · exact ((circuitBreaker_halfOpen_recovery.2 _ 50 (by decide)
      (by decide)).2.2 150 (by decide)).1

/-! ## Concurrency limiter (src/cli/concurrencyLimiter.ts)

The limiter is modelled as a deterministic transition system.  One
LimiterState holds the queue, the inFlight dedupe map, the list of
currently executing requests (whose length is the activeCount field of the
source) and, as observable history, the ids of requests whose executor was
invoked, the dedupe attachments made, and the settlements delivered to
callers.  Events: an execute() call (submit), the settlement callback of
one executing request firing (settle), and clear(). -/

/-- CLICommandConfig of the source. -/
structure CLICommandConfig where
  command : String
  args : List String
  timeout : Option Nat := none
  cwd : Option String := none
  dedupe : Option Bool := none
deriving DecidableEq, Repr

/-- getDedupeKey: command and colon-joined args. -/
def ConcurrencyLimiter.getDedupeKey (config : CLICommandConfig) : String :=
  config.command ++ ":" ++ String.intercalate ":" config.args

/-- The source guard config.dedupe !== false (default is dedupe on). -/
def dedupeEnabled (config : CLICommandConfig) : Bool :=
  config.dedupe ≠ some false

/-- How a promise settles: resolved with a value or rejected with an error
message. -/
inductive Outcome (α : Type)
  | ok (v : α)
  | err (e : String)
deriving DecidableEq, Repr

/-- One queued request: its submission id and its config.  The resolve and
reject callbacks of the source are represented by the settlement history
keyed by id. -/
structure QueuedRequest where
  id : Nat
  config : CLICommandConfig
deriving DecidableEq, Repr

/-- Lookup in an association list used to model a JavaScript Map. -/
def mapLookup {β : Type} (k : String) : List (String × β) → Option β
  | [] => none
  | p :: rest => if p.1 = k then some p.2 else mapLookup k rest

/-- Map.delete: remove every binding of the key. -/
def mapEraseKey {β : Type} (k : String) : List (String × β) → List (String × β)
  | [] => []
  | p :: rest => if p.1 = k then mapEraseKey k rest else p :: mapEraseKey k rest

/-- Map.set: bind the key, replacing any previous binding. -/
def mapInsert {β : Type} (k : String) (v : β) (m : List (String × β)) :
    List (String × β) :=
  (k, v) :: mapEraseKey k m

/-- Remove the first executing request with the given id (the request whose
settlement callback fired). -/
def removeFirstId (id : Nat) : List QueuedRequest → List QueuedRequest
  | [] => []
  | r :: rest => if r.id = id then rest else r :: removeFirstId id rest

/-- Find an executing request by id. -/
def findById (id : Nat) : List QueuedRequest → Option QueuedRequest
  | [] => none
  | r :: rest => if r.id = id then some r else findById id rest

/-- Full state of one ConcurrencyLimiter plus its observable history.
maxConcurrency is the readonly constructor parameter; queue, inFlight and
executing (whose length is activeCount) are the mutable fields; invoked,
attachments and settled record, in order, the executor invocations, the
dedupe attachments (caller id, executing id attached to) and the caller
promise settlements. -/
structure LimiterState (α : Type) where
  maxConcurrency : Nat
  nextId : Nat
  queue : List QueuedRequest
  inFlight : List (String × Nat)
  executing : List QueuedRequest
  invoked : List Nat
  attachments : List (Nat × Nat)
  settled : List (Nat × Outcome α)
deriving DecidableEq, Repr

/-- The while loop of processQueue: as long as the queue is non-empty and
activeCount is below maxConcurrency, dequeue the front request, mark it
active, invoke the executor for it, and (when its dedupe flag is not false)
register its pending promise in the inFlight map.  The fuel argument is an
upper bound on the number of iterations; the queue only shrinks, so the
initial queue length suffices. -/
def drainFuel {α : Type} : Nat → LimiterState α → LimiterState α
  | 0, s => s
  | fuel + 1, s =>
    match s.queue with
    | [] => s
    | r :: rest =>
      if s.executing.length < s.maxConcurrency then
        drainFuel fuel
          { s with
            queue := rest,
            executing := s.executing ++ [r],
            invoked := s.invoked ++ [r.id],
            inFlight :=
              if dedupeEnabled r.config then
                mapInsert (ConcurrencyLimiter.getDedupeKey r.config) r.id
                  s.inFlight
              else
                s.inFlight }
      else
        s

/-- processQueue(). -/
def processQueue {α : Type} (s : LimiterState α) : LimiterState α :=
  drainFuel s.queue.length s

/-- execute(config, executor): when dedupe is enabled and an identical
request is in flight, return that pending promise (an attachment, the
executor is not invoked); otherwise push a fresh request and drain the
queue. -/
def limiterSubmit {α : Type} (config : CLICommandConfig) (s : LimiterState α) :
    LimiterState α :=
  match
    (if dedupeEnabled config then
      mapLookup (ConcurrencyLimiter.getDedupeKey config) s.inFlight
    else none) with
  | some target =>
    { s with nextId := s.nextId + 1,
             attachments := s.attachments ++ [(s.nextId, target)] }
  | none =>
    processQueue
      { s with nextId := s.nextId + 1,
               queue := s.queue ++ [⟨s.nextId, config⟩] }

/-- The settlement callback chain of one executing request firing with the
given outcome: the caller promise settles (then every attached caller
settles with the same outcome), activeCount is decremented, the dedupe key
of the request is deleted from inFlight, and the queue is drained again. -/
def limiterSettle {α : Type} (id : Nat) (o : Outcome α) (s : LimiterState α) :
    LimiterState α :=
  match findById id s.executing with
  | none => s
  | some r =>
    processQueue
      { s with
        executing := removeFirstId id s.executing,
        inFlight := mapEraseKey (ConcurrencyLimiter.getDedupeKey r.config)
          s.inFlight,
        settled := s.settled ++ (id, o) ::
          (s.attachments.filter (fun a => a.2 = id)).map (fun a => (a.1, o)) }

/-- clear(): reject every queued request with Queue cleared, empty the queue
and the inFlight map; executing requests are untouched. -/
def limiterClear {α : Type} (s : LimiterState α) : LimiterState α :=
  { s with
    settled := s.settled ++
      s.queue.map (fun r => (r.id, Outcome.err (α := α) "Queue cleared")),
    queue := [],
    inFlight := [] }

/-- Events the limiter reacts to in one synchronous span. -/
inductive LimiterEv (α : Type)
  | submit (config : CLICommandConfig)
  | settle (id : Nat) (o : Outcome α)
  | clear
deriving DecidableEq, Repr

/-- One limiter step. -/
def limiterStep {α : Type} (e : LimiterEv α) (s : LimiterState α) :
    LimiterState α :=
  match e with
  | .submit config => limiterSubmit config s
  | .settle id o => limiterSettle id o s
  | .clear => limiterClear s

/-- Run a sequence of limiter events. -/
def limiterRun {α : Type} (evs : List (LimiterEv α)) (s : LimiterState α) :
    LimiterState α :=
  evs.foldl (fun s e => limiterStep e s) s

/-- A freshly constructed limiter. -/
def limiterInit (α : Type) (maxConcurrency : Nat) : LimiterState α :=
  { maxConcurrency := maxConcurrency, nextId := 0, queue := [],
    inFlight := [], executing := [], invoked := [], attachments := [],
    settled := [] }

/-! Helper lemmas about the map and list helpers. -/

theorem mapLookup_some_mem {β : Type} (k : String) (v : β) :
    ∀ m : List (String × β), mapLookup k m = some v → (k, v) ∈ m := by
  intro m
  induction m with
  | nil => intro h; simp [mapLookup] at h
  | cons p rest ih =>
    intro h
    unfold mapLookup at h
    split at h
    · rename_i hk
      cases h
      exact List.mem_cons.mpr (Or.inl (by cases p; simp_all))
    · exact List.mem_cons_of_mem _ (ih h)

theorem mem_mapEraseKey {β : Type} (k : String) (p : String × β) :
    ∀ m : List (String × β), p ∈ mapEraseKey k m → p ∈ m ∧ p.1 ≠ k := by
  intro m
  induction m with
  | nil => intro h; simp [mapEraseKey] at h
  | cons q rest ih =>
    intro h
    unfold mapEraseKey at h
    split at h
    · exact ⟨List.mem_cons_of_mem _ (ih h).1, (ih h).2⟩
    · rename_i hq
      rcases List.mem_cons.mp h with h1 | h1
      · exact ⟨List.mem_cons.mpr (Or.inl h1), by rw [h1]; exact hq⟩
      · exact ⟨List.mem_cons_of_mem _ (ih h1).1, (ih h1).2⟩

theorem mem_mapInsert {β : Type} (k : String) (v : β) (p : String × β)
    (m : List (String × β)) (h : p ∈ mapInsert k v m) :
    p = (k, v) ∨ (p ∈ m ∧ p.1 ≠ k) := by
  unfold mapInsert at h
  rcases List.mem_cons.mp h with h1 | h1
  · exact Or.inl h1
  · exact Or.inr (mem_mapEraseKey k p m h1)

theorem removeFirstId_sublist (id : Nat) :
    ∀ l : List QueuedRequest, (removeFirstId id l).Sublist l := by
  intro l
  induction l with
  | nil => simp [removeFirstId]
  | cons r rest ih =>
    unfold removeFirstId
    split
    · exact List.sublist_cons_self r rest
    · exact List.Sublist.cons₂ r ih

theorem mem_removeFirstId_of_ne (id : Nat) (r : QueuedRequest) :
    ∀ l : List QueuedRequest, r ∈ l → r.id ≠ id → r ∈ removeFirstId id l := by
  intro l
  induction l with
  | nil => intro h; simp at h
  | cons q rest ih =>
    intro h hne
    unfold removeFirstId
    split
    · rename_i hq
      rcases List.mem_cons.mp h with h1 | h1
      · exact absurd (h1 ▸ hq) hne
      · exact h1
    · rcases List.mem_cons.mp h with h1 | h1
      · exact List.mem_cons.mpr (Or.inl h1)
      · exact List.mem_cons_of_mem _ (ih h1 hne)

theorem findById_spec (id : Nat) (r : QueuedRequest) :
    ∀ l : List QueuedRequest, findById id l = some r → r ∈ l ∧ r.id = id := by
  intro l
  induction l with
  | nil => intro h; simp [findById] at h
  | cons q rest ih =>
    intro h
    unfold findById at h
    split at h
    · rename_i hq
      cases h
      exact ⟨List.mem_cons.mpr (Or.inl rfl), hq⟩
    · exact ⟨List.mem_cons_of_mem _ (ih h).1, (ih h).2⟩

/-! The reachability invariant of the limiter.  Submission ids grow with
enqueue order, the queue and the invocation history are sorted by id,
executing requests have pairwise distinct ids, activeCount is bounded by
maxConcurrency, and every inFlight entry points at a currently executing
dedupe-enabled request whose dedupe key is the entry's key. -/

structure LimiterInv {α : Type} (s : LimiterState α) : Prop where
  activeBound : s.executing.length ≤ s.maxConcurrency
  invokedSorted : List.Pairwise (· < ·) s.invoked
  queueSorted : List.Pairwise (· < ·) (s.queue.map QueuedRequest.id)
  invokedBeforeQueue : ∀ i ∈ s.invoked, ∀ r ∈ s.queue, i < r.id
  invokedLt : ∀ i ∈ s.invoked, i < s.nextId
  queueLt : ∀ r ∈ s.queue, r.id < s.nextId
  executingLt : ∀ r ∈ s.executing, r.id < s.nextId
  executingNodup : (s.executing.map QueuedRequest.id).Nodup
  queueExecDisjoint : ∀ r ∈ s.queue, ∀ q ∈ s.executing, r.id ≠ q.id
  inFlightExec : ∀ p ∈ s.inFlight, ∃ r ∈ s.executing, r.id = p.2 ∧
    ConcurrencyLimiter.getDedupeKey r.config = p.1 ∧
    dedupeEnabled r.config = true

theorem limiterInv_init (α : Type) (m : Nat) : LimiterInv (limiterInit α m) := by
  constructor <;> simp [limiterInit]

theorem limiterInv_drainFuel {α : Type} :
    ∀ (fuel : Nat) (s : LimiterState α), LimiterInv s →
    LimiterInv (drainFuel fuel s) := by
  intro fuel
  induction fuel with
  | zero => intro s hs; exact hs
  | succ n ih =>
    intro s hs
    rcases hq : s.queue with _ | ⟨r, rest⟩
    · simp only [drainFuel, hq]
      exact hs
    · by_cases hlen : s.executing.length < s.maxConcurrency
      · simp only [drainFuel, hq, if_pos hlen]
        apply ih
        have hrq : r ∈ s.queue := by rw [hq]; exact List.mem_cons_self r rest
        have hrestq : ∀ q ∈ rest, q ∈ s.queue := by
          intro q hqm; rw [hq]; exact List.mem_cons_of_mem _ hqm
        have hqsorted : List.Pairwise (· < ·)
            (QueuedRequest.id r :: rest.map QueuedRequest.id) := by
          have := hs.queueSorted
          rw [hq, List.map_cons] at this
          exact this
        have hrlt : ∀ q ∈ rest, r.id < q.id := by
          intro q hqm
          exact (List.pairwise_cons.mp hqsorted).1 _
            (List.mem_map_of_mem QueuedRequest.id hqm)
        constructor
        · simp only [List.length_append, List.length_singleton]
          omega
        · rw [List.pairwise_append]
          refine ⟨hs.invokedSorted, List.pairwise_singleton _ _, ?_⟩
          intro a ha b hb
          rw [List.mem_singleton] at hb
          subst hb
          exact hs.invokedBeforeQueue a ha r hrq
        · exact hqsorted.of_cons
        · intro i hi q hqm
          rcases List.mem_append.mp hi with h1 | h1
          · exact hs.invokedBeforeQueue i h1 q (hrestq q hqm)
          · rw [List.mem_singleton] at h1
            subst h1
            exact hrlt q hqm
        · intro i hi
          rcases List.mem_append.mp hi with h1 | h1
          · exact hs.invokedLt i h1
          · rw [List.mem_singleton] at h1
            subst h1
            exact hs.queueLt r hrq
        · intro q hqm
          exact hs.queueLt q (hrestq q hqm)
        · intro q hqm
          rcases List.mem_append.mp hqm with h1 | h1
          · exact hs.executingLt q h1
          · rw [List.mem_singleton] at h1
            subst h1
            exact hs.queueLt q hrq
        · rw [List.map_append, List.nodup_append]
          refine ⟨hs.executingNodup, List.nodup_singleton _, ?_⟩
          intro a ha hb
          simp only [List.map_singleton, List.mem_singleton] at hb
          subst hb
          rcases List.mem_map.mp ha with ⟨q, hqm, hqid⟩
          exact hs.queueExecDisjoint r hrq q hqm hqid.symm
        · intro q hqm e hem
          rcases List.mem_append.mp hem with h1 | h1
          · exact hs.queueExecDisjoint q (hrestq q hqm) e h1
          · rw [List.mem_singleton] at h1
            subst h1
            exact Nat.ne_of_gt (hrlt q hqm)
        · intro p hp
          simp only at hp
          by_cases hd : dedupeEnabled r.config
          · rw [if_pos hd] at hp
            rcases mem_mapInsert _ _ _ _ hp with h1 | h1
            · subst h1
              exact ⟨r, List.mem_append.mpr (Or.inr (List.mem_singleton.mpr
                rfl)), rfl, rfl, hd⟩
            · rcases hs.inFlightExec p h1.1 with ⟨w, hw, hwid, hwkey, hwd⟩
              exact ⟨w, List.mem_append.mpr (Or.inl hw), hwid, hwkey, hwd⟩
          · rw [if_neg hd] at hp
            rcases hs.inFlightExec p hp with ⟨w, hw, hwid, hwkey, hwd⟩
            exact ⟨w, List.mem_append.mpr (Or.inl hw), hwid, hwkey, hwd⟩
      · simp only [drainFuel, hq, if_neg hlen]
        exact hs

theorem limiterInv_processQueue {α : Type} (s : LimiterState α)
    (hs : LimiterInv s) : LimiterInv (processQueue s) :=
  limiterInv_drainFuel s.queue.length s hs

theorem limiterInv_submit {α : Type} (config : CLICommandConfig)
    (s : LimiterState α) (hs : LimiterInv s) :
    LimiterInv (limiterSubmit config s) := by
  unfold limiterSubmit
  split
  · -- attach to the in-flight duplicate: only nextId and attachments change
    constructor
    · exact hs.activeBound
    · exact hs.invokedSorted
    · exact hs.queueSorted
    · exact hs.invokedBeforeQueue
    · intro i hi; exact Nat.lt_succ_of_lt (hs.invokedLt i hi)
    · intro r hr; exact Nat.lt_succ_of_lt (hs.queueLt r hr)
    · intro r hr; exact Nat.lt_succ_of_lt (hs.executingLt r hr)
    · exact hs.executingNodup
    · exact hs.queueExecDisjoint
    · exact hs.inFlightExec
  · -- enqueue a fresh request, then drain
    apply limiterInv_processQueue
    constructor
    · exact hs.activeBound
    · exact hs.invokedSorted
    · rw [List.map_append, List.map_singleton, List.pairwise_append]
      refine ⟨hs.queueSorted, List.pairwise_singleton _ _, ?_⟩
      intro a ha b hb
      rw [List.mem_singleton] at hb
      subst hb
      rcases List.mem_map.mp ha with ⟨q, hqm, hqid⟩
      rw [← hqid]
      exact hs.queueLt q hqm
    · intro i hi r hr
      rcases List.mem_append.mp hr with h1 | h1
      · exact hs.invokedBeforeQueue i hi r h1
      · rw [List.mem_singleton] at h1
        subst h1
        exact hs.invokedLt i hi
    · intro i hi; exact Nat.lt_succ_of_lt (hs.invokedLt i hi)
    · intro r hr
      rcases List.mem_append.mp hr with h1 | h1
      · exact Nat.lt_succ_of_lt (hs.queueLt r h1)
      · rw [List.mem_singleton] at h1
        subst h1
        exact Nat.lt_succ_self _
    · intro r hr; exact Nat.lt_succ_of_lt (hs.executingLt r hr)
    · exact hs.executingNodup
    · intro r hr q hq
      rcases List.mem_append.mp hr with h1 | h1
      · exact hs.queueExecDisjoint r h1 q hq
      · rw [List.mem_singleton] at h1
        subst h1
        exact Nat.ne_of_gt (hs.executingLt q hq)
    · exact hs.inFlightExec

theorem limiterInv_settle {α : Type} (id : Nat) (o : Outcome α)
    (s : LimiterState α) (hs : LimiterInv s) :
    LimiterInv (limiterSettle id o s) := by
  unfold limiterSettle
  split
  · exact hs
  · rename_i r hfind
    obtain ⟨hrmem, hrid⟩ := findById_spec id r s.executing hfind
    apply limiterInv_processQueue
    have hsub : (removeFirstId id s.executing).Sublist s.executing :=
      removeFirstId_sublist id s.executing
    constructor
    · exact le_trans hsub.length_le hs.activeBound
    · exact hs.invokedSorted
    · exact hs.queueSorted
    · exact hs.invokedBeforeQueue
    · exact hs.invokedLt
    · exact hs.queueLt
    · intro q hq; exact hs.executingLt q (hsub.mem hq)
    · exact hs.executingNodup.sublist (hsub.map QueuedRequest.id)
    · intro q hq e he; exact hs.queueExecDisjoint q hq e (hsub.mem he)
    · intro p hp
      obtain ⟨hpmem, hpkey⟩ :=
        mem_mapEraseKey (ConcurrencyLimiter.getDedupeKey r.config) p
          s.inFlight hp
      rcases hs.inFlightExec p hpmem with ⟨w, hw, hwid, hwkey, hwd⟩
      have hwne : w.id ≠ id := by
        intro hweq
        have : w = r := List.inj_on_of_nodup_map hs.executingNodup hw hrmem
          (by rw [hweq, hrid])
        rw [this] at hwkey
        exact hpkey hwkey.symm
      exact ⟨w, mem_removeFirstId_of_ne id w s.executing hw hwne, hwid,
        hwkey, hwd⟩

theorem limiterInv_clear {α : Type} (s : LimiterState α) (hs : LimiterInv s) :
    LimiterInv (limiterClear s) := by
  constructor
  · exact hs.activeBound
  · exact hs.invokedSorted
  · simp [limiterClear]
  · simp [limiterClear]
  · exact hs.invokedLt
  · simp [limiterClear]
  · exact hs.executingLt
  · exact hs.executingNodup
  · simp [limiterClear]
  · simp [limiterClear]

theorem limiterInv_step {α : Type} (e : LimiterEv α) (s : LimiterState α)
    (hs : LimiterInv s) : LimiterInv (limiterStep e s) := by
  cases e with
  | submit config => exact limiterInv_submit config s hs
  | settle id o => exact limiterInv_settle id o s hs
  | clear => exact limiterInv_clear s hs

theorem limiterInv_run {α : Type} (evs : List (LimiterEv α)) :
    ∀ s : LimiterState α, LimiterInv s → LimiterInv (limiterRun evs s) := by
  induction evs with
  | nil => intro s hs; exact hs
  | cons e rest ih =>
    intro s hs
    simp only [limiterRun, List.foldl_cons] at ih ⊢
    exact ih (limiterStep e s) (limiterInv_step e s hs)

/-! maxConcurrency is a readonly field: no operation changes it. -/

theorem drainFuel_max {α : Type} :
    ∀ (fuel : Nat) (s : LimiterState α),
    (drainFuel fuel s).maxConcurrency = s.maxConcurrency := by
  intro fuel
  induction fuel with
  | zero => intro s; rfl
  | succ n ih =>
    intro s
    rcases hq : s.queue with _ | ⟨r, rest⟩
    · simp only [drainFuel, hq]
    · by_cases hlen : s.executing.length < s.maxConcurrency
      · simp only [drainFuel, hq, if_pos hlen]
        rw [ih]
      · simp only [drainFuel, hq, if_neg hlen]

theorem limiterStep_max {α : Type} (e : LimiterEv α) (s : LimiterState α) :
    (limiterStep e s).maxConcurrency = s.maxConcurrency := by
  cases e with
  | submit config =>
    simp only [limiterStep]
    unfold limiterSubmit
    split
    · rfl
    · unfold processQueue
      rw [drainFuel_max]
  | settle id o =>
    simp only [limiterStep]
    unfold limiterSettle
    split
    · rfl
    · unfold processQueue
      rw [drainFuel_max]
  | clear => rfl

theorem limiterRun_max {α : Type} (evs : List (LimiterEv α)) :
    ∀ s : LimiterState α,
    (limiterRun evs s).maxConcurrency = s.maxConcurrency := by
  induction evs with
  | nil => intro s; rfl
  | cons e rest ih =>
    intro s
    simp only [limiterRun, List.foldl_cons] at ih ⊢
    rw [ih, limiterStep_max]

/-! The drain loop never touches the settlement history, the attachment
history or the id counter. -/

theorem drainFuel_preserves {α : Type} :
    ∀ (fuel : Nat) (s : LimiterState α),
    (drainFuel fuel s).settled = s.settled ∧
    (drainFuel fuel s).attachments = s.attachments ∧
    (drainFuel fuel s).nextId = s.nextId := by
  intro fuel
  induction fuel with
  | zero => intro s; exact ⟨rfl, rfl, rfl⟩
  | succ n ih =>
    intro s
    rcases hq : s.queue with _ | ⟨r, rest⟩
    · simp [drainFuel, hq]
    · by_cases hlen : s.executing.length < s.maxConcurrency
      · simp only [drainFuel, hq, if_pos hlen]
        obtain ⟨h1, h2, h3⟩ := ih _
        exact ⟨h1, h2, h3⟩
      · simp [drainFuel, hq, hlen]

theorem processQueue_settled {α : Type} (s : LimiterState α) :
    (processQueue s).settled = s.settled :=
  (drainFuel_preserves s.queue.length s).1

/-- C6: for every maxConcurrency M and every event sequence from a fresh
limiter — submissions, settlements and clears interleaved arbitrarily,
including bursts of more than M simultaneous requests — the number of
simultaneously executing requests (activeCount) never exceeds M. -/
theorem concurrencyLimiter_active_bound (α : Type) (M : Nat)
    (evs : List (LimiterEv α)) :
    (limiterRun evs (limiterInit α M)).executing.length ≤ M := by
  have h := (limiterInv_run evs (limiterInit α M)
    (limiterInv_init α M)).activeBound
  have hm := limiterRun_max evs (limiterInit α M)
  rw [hm] at h
  exact h

/-- C7: requests are admitted to execution in strict FIFO order of their
enqueueing.  Submission ids are assigned in submission order, enqueued
requests enter the queue in id order, and the invocation history (the ids
whose executor was invoked, listed in admission order) is strictly
increasing: a request enqueued later is never started before one enqueued
earlier, including requests submitted while the limiter is at its
concurrency cap. -/
theorem concurrencyLimiter_fifo (α : Type) (M : Nat)
    (evs : List (LimiterEv α)) :
    List.Pairwise (· < ·) (limiterRun evs (limiterInit α M)).invoked :=
  (limiterInv_run evs (limiterInit α M) (limiterInv_init α M)).invokedSorted

/-- A dedupe-enabled request config used by the limiter counterexamples. -/
def cfgA : CLICommandConfig := { command := "c", args := ["a"] }

/-- A dedupe-disabled blocker config occupying the single execution slot. -/
def cfgBlock : CLICommandConfig :=
  { command := "block", args := [], dedupe := some false }

/-- Counterexample to C8 as stated: after submit cfgA (which starts
executing immediately and registers its inFlight entry) followed by
clear(), the request is still executing and not settled, yet its inFlight
entry is gone — the entry is not present for the whole time a matching
request is executing once clear() is involved. -/
theorem concurrencyLimiter_inFlight_cleared_while_executing :
    (⟨0, cfgA⟩ : QueuedRequest) ∈
      (limiterRun [LimiterEv.submit cfgA, LimiterEv.clear]
        (limiterInit Nat 1)).executing ∧
    dedupeEnabled cfgA = true ∧
    (limiterRun [LimiterEv.submit cfgA, LimiterEv.clear]
      (limiterInit Nat 1)).settled = [] ∧
    mapLookup (ConcurrencyLimiter.getDedupeKey cfgA)
      (limiterRun [LimiterEv.submit cfgA, LimiterEv.clear]
        (limiterInit Nat 1)).inFlight = none := by
  refine ⟨?_, ?_, ?_, ?_⟩ <;> decide

/-- C8 (amended): the inFlight entry for a key is created when a
dedupe-enabled request with that key starts executing and removed when a
request with that key settles or when clear() is called — so the entry can
disappear while a matching request is still executing (clear, or the
settlement of another request with the same key), but whenever an entry
(k, i) is present, the request with id i is currently executing, is
dedupe-enabled, and has dedupe key k, under every sequence of execute,
settlement and clear operations. -/
theorem concurrencyLimiter_inFlight_invariant (α : Type) (M : Nat)
    (evs : List (LimiterEv α)) (k : String) (i : Nat)
    (h : mapLookup k (limiterRun evs (limiterInit α M)).inFlight = some i) :
    ∃ r ∈ (limiterRun evs (limiterInit α M)).executing, r.id = i ∧
      ConcurrencyLimiter.getDedupeKey r.config = k ∧
      dedupeEnabled r.config = true := by
  have hinv := limiterInv_run evs (limiterInit α M) (limiterInv_init α M)
  exact hinv.inFlightExec (k, i) (mapLookup_some_mem k i _ h)

/-- Witness for the amended C8: one dedupe-enabled request in flight, the
inFlight entry points at it. -/
theorem concurrencyLimiter_inFlight_invariant_witness :
    mapLookup (ConcurrencyLimiter.getDedupeKey cfgA)
      (limiterRun [LimiterEv.submit cfgA] (limiterInit Nat 1)).inFlight =
      some 0 ∧
    (∃ r ∈ (limiterRun [LimiterEv.submit cfgA]
        (limiterInit Nat 1)).executing,
      r.id = 0 ∧ ConcurrencyLimiter.getDedupeKey r.config =
        ConcurrencyLimiter.getDedupeKey cfgA ∧
      dedupeEnabled r.config = true) :=
  ⟨by decide, concurrencyLimiter_inFlight_invariant Nat 1
    [LimiterEv.submit cfgA] (ConcurrencyLimiter.getDedupeKey cfgA) 0
    (by decide)⟩

/-- Counterexample trace to C5 as stated: maxConcurrency 1; a dedupe:false
blocker occupies the slot, then two identical dedupe-enabled requests are
submitted concurrently; both are queued (the inFlight map is only
populated when a request starts executing, not when it is enqueued), so
when the blocker settles both are executed. -/
def c5trace : List (LimiterEv Nat) :=
  [LimiterEv.submit cfgBlock, LimiterEv.submit cfgA, LimiterEv.submit cfgA,
   LimiterEv.settle 0 (Outcome.ok 100), LimiterEv.settle 1 (Outcome.ok 1),
   LimiterEv.settle 2 (Outcome.ok 2)]

/-- Counterexample to C5 as stated: on c5trace the two concurrent identical
dedupe-enabled calls (submissions 1 and 2) are both executor-invoked — the
invocation history is [0, 1, 2] and no dedupe attachment was made — and
the two callers settle with different executor results (1 and 2), not an
identical shared value. -/
theorem concurrencyLimiter_dedupe_counterexample :
    (limiterRun c5trace (limiterInit Nat 1)).invoked = [0, 1, 2] ∧
    (limiterRun c5trace (limiterInit Nat 1)).attachments = [] ∧
    (1, Outcome.ok 1) ∈ (limiterRun c5trace (limiterInit Nat 1)).settled ∧
    (2, Outcome.ok 2) ∈ (limiterRun c5trace (limiterInit Nat 1)).settled ∧
    dedupeEnabled cfgA = true := by
  refine ⟨?_, ?_, ?_, ?_, ?_⟩ <;> decide

/-- C5 (amended): when the second identical dedupe-enabled call arrives
while the first is actually executing — its key is in the inFlight map —
the executor is not invoked again: the call only records an attachment
(no queue, executing, invocation or settlement change), and when the
in-flight request settles, the original caller and the attached caller
receive the identical outcome. -/
theorem concurrencyLimiter_dedupe_inflight (α : Type)
    (config : CLICommandConfig) (s : LimiterState α) (t : Nat)
    (r : QueuedRequest) (o : Outcome α)
    (hd : dedupeEnabled config = true)
    (hl : mapLookup (ConcurrencyLimiter.getDedupeKey config) s.inFlight =
      some t)
    (hex : findById t s.executing = some r) :
    limiterSubmit config s =
      { s with nextId := s.nextId + 1,
               attachments := s.attachments ++ [(s.nextId, t)] } ∧
    (t, o) ∈ (limiterSettle t o (limiterSubmit config s)).settled ∧
    (s.nextId, o) ∈ (limiterSettle t o (limiterSubmit config s)).settled := by
  have hscrut : (if dedupeEnabled config then
      mapLookup (ConcurrencyLimiter.getDedupeKey config) s.inFlight
    else none) = some t := by
    rw [hd]
    simpa using hl
  have h1 : limiterSubmit config s =
      { s with nextId := s.nextId + 1,
               attachments := s.attachments ++ [(s.nextId, t)] } := by
    unfold limiterSubmit
    rw [hscrut]
  refine ⟨h1, ?_, ?_⟩ <;> rw [h1] <;> unfold limiterSettle <;>
    simp only [hex] <;> rw [processQueue_settled] <;> simp only []
  · exact List.mem_append.mpr (Or.inr (List.mem_cons_self _ _))
  · refine List.mem_append.mpr (Or.inr (List.mem_cons_of_mem _ ?_))
    refine List.mem_map.mpr ⟨(s.nextId, t), ?_, rfl⟩
    refine List.mem_filter.mpr ⟨List.mem_append.mpr (Or.inr
      (List.mem_singleton.mpr rfl)), by simp⟩

/-- Witness for the amended C5 on a concrete state: with one cfgA request
executing, a second cfgA submission attaches and both callers settle with
the identical outcome ok 7. -/
theorem concurrencyLimiter_dedupe_inflight_witness :
    limiterSubmit cfgA (limiterRun [LimiterEv.submit cfgA]
        (limiterInit Nat 2)) =
      { limiterRun [LimiterEv.submit cfgA] (limiterInit Nat 2) with
        nextId := 2, attachments := [(1, 0)] } ∧
    (0, Outcome.ok 7) ∈ (limiterSettle 0 (Outcome.ok 7)
      (limiterSubmit cfgA (limiterRun [LimiterEv.submit cfgA]
        (limiterInit Nat 2)))).settled ∧
    (1, Outcome.ok 7) ∈ (limiterSettle 0 (Outcome.ok 7)
      (limiterSubmit cfgA (limiterRun [LimiterEv.submit cfgA]
        (limiterInit Nat 2)))).settled :=
  concurrencyLimiter_dedupe_inflight Nat cfgA
    (limiterRun [LimiterEv.submit cfgA] (limiterInit Nat 2)) 0
    ⟨0, cfgA⟩ (Outcome.ok 7) (by decide) (by decide) (by decide)

/-- Config whose single argument contains a colon, colliding with
cfgTwoArgs under the dedupe key. -/
def cfgColonArg : CLICommandConfig := { command := "c", args := ["a:b"] }

/-- Config with two separate arguments, colliding with cfgColonArg. -/
def cfgTwoArgs : CLICommandConfig := { command := "c", args := ["a", "b"] }

/-- C10: the dedupe key is not injective in the argument list: args
["a:b"] and args ["a", "b"] yield the same key, and two such concurrent
dedupe-enabled requests are collapsed — only the first is executor-invoked,
the second merely attaches, and both callers receive the first request's
result. -/
theorem dedupeKey_not_injective :
    ConcurrencyLimiter.getDedupeKey cfgColonArg =
      ConcurrencyLimiter.getDedupeKey cfgTwoArgs ∧
    cfgColonArg.args ≠ cfgTwoArgs.args ∧
    (limiterRun [LimiterEv.submit cfgColonArg, LimiterEv.submit cfgTwoArgs,
        LimiterEv.settle 0 (Outcome.ok 42)] (limiterInit Nat 4)).invoked =
      [0] ∧
    (limiterRun [LimiterEv.submit cfgColonArg, LimiterEv.submit cfgTwoArgs,
        LimiterEv.settle 0 (Outcome.ok 42)]
        (limiterInit Nat 4)).attachments = [(1, 0)] ∧
    (0, Outcome.ok 42) ∈ (limiterRun [LimiterEv.submit cfgColonArg,
        LimiterEv.submit cfgTwoArgs, LimiterEv.settle 0 (Outcome.ok 42)]
        (limiterInit Nat 4)).settled ∧
    (1, Outcome.ok 42) ∈ (limiterRun [LimiterEv.submit cfgColonArg,
        LimiterEv.submit cfgTwoArgs, LimiterEv.settle 0 (Outcome.ok 42)]
        (limiterInit Nat 4)).settled := by
  refine ⟨?_, ?_, ?_, ?_, ?_, ?_⟩ <;> decide

/-! ## Process supervisor (src/cli/processSupervisor.ts)

The supervisor composes the breaker and the limiter.  Its inner executor
(executeCommand) always calls resolve — both the completion callback and
the spawn-error handler resolve with a CLIResult envelope, never reject —
so the settlement of an executing request is modelled as a procDone event
carrying the envelope; the callback records a breaker success or failure
according to whether an error occurred (mirrored by the envelope's success
flag) before resolving.  The active-process table and totalSpawned counter
only feed teardown and stats and are not needed by the claims, so they are
not modelled. -/

/-- CLIResult of the source: the uniform result envelope. -/
structure CLIResult (α : Type) where
  success : Bool
  data : Option α
  error : Option String
  exitCode : Int
  duration : Nat
  command : String
deriving DecidableEq, Repr

/-- formatCommand: command and space-joined args. -/
def ProcessSupervisor.formatCommand (config : CLICommandConfig) : String :=
  config.command ++ " " ++ String.intercalate " " config.args

/-- failResult: the failure envelope built for refused requests. -/
def ProcessSupervisor.failResult (α : Type) (e : String)
    (config : CLICommandConfig) : CLIResult α :=
  { success := false, data := none, error := some e, exitCode := -1,
    duration := 0, command := ProcessSupervisor.formatCommand config }

/-- State of one ProcessSupervisor: the destroyed latch, its circuit
breaker and its concurrency limiter (the limiter's outcome payload type is
the supervisor's envelope type). -/
structure SupervisorState (α : Type) where
  destroyed : Bool
  circuitBreaker : CircuitBreaker
  limiter : LimiterState (CLIResult α)
deriving DecidableEq, Repr

/-- Supervisor events: an execute() call at a wall-clock time, the
completion of one executing external process with the envelope its
callback resolves (the callback never rejects), and destroy(). -/
inductive SupervisorEv (α : Type)
  | execute (config : CLICommandConfig) (now : Nat)
  | procDone (id : Nat) (env : CLIResult α) (now : Nat)
  | destroy
deriving DecidableEq, Repr

/-- One supervisor step.  The second component is the immediate return
value of an execute() call when it short-circuits (destroyed latch or open
breaker); a delegated execute() returns the limiter promise, whose
settlement shows up later in the limiter's settled history. -/
def supervisorStep {α : Type} (e : SupervisorEv α) (s : SupervisorState α) :
    SupervisorState α × Option (CLIResult α) :=
  match e with
  | .execute config now =>
    if s.destroyed then
      (s, some (ProcessSupervisor.failResult α
        "Process supervisor has been destroyed" config))
    else
      let cb := s.circuitBreaker.canExecute now
      if cb.2 then
        ({ s with circuitBreaker := cb.1,
                  limiter := limiterSubmit config s.limiter }, none)
      else
        ({ s with circuitBreaker := cb.1 },
         some (ProcessSupervisor.failResult α
           "Circuit breaker is open — CLI is unavailable" config))
  | .procDone id env now =>
    ({ s with
        circuitBreaker :=
          if env.success then s.circuitBreaker.recordSuccess
          else s.circuitBreaker.recordFailure now,
        limiter := limiterSettle id (Outcome.ok env) s.limiter }, none)
  | .destroy =>
    ({ s with destroyed := true, limiter := limiterClear s.limiter }, none)

/-- Run a sequence of supervisor events, collecting the immediate return
value of each event (none for events that are not short-circuiting
execute() calls). -/
def supervisorRun {α : Type} :
    List (SupervisorEv α) → SupervisorState α →
    SupervisorState α × List (Option (CLIResult α))
  | [], s => (s, [])
  | e :: rest, s =>
    let p := supervisorStep e s
    let q := supervisorRun rest p.1
    (q.1, p.2 :: q.2)

/-- A freshly constructed supervisor. -/
def supervisorInit (α : Type) (maxConcurrency threshold resetTimeMs : Nat) :
    SupervisorState α :=
  { destroyed := false,
    circuitBreaker := CircuitBreaker.mk0 threshold resetTimeMs,
    limiter := limiterInit (CLIResult α) maxConcurrency }

/-! Helper lemmas for the destroyed latch. -/

theorem supervisorRun_destroyed {α : Type} (evs : List (SupervisorEv α)) :
    ∀ s : SupervisorState α, s.destroyed = true →
    ((supervisorRun evs s).1.destroyed = true ∧
     (supervisorRun evs s).2 = evs.map (fun e =>
       match e with
       | .execute config _ => some (ProcessSupervisor.failResult α
           "Process supervisor has been destroyed" config)
       | _ => none)) := by
  induction evs with
  | nil => intro s _; exact ⟨by assumption, rfl⟩
  | cons e rest ih =>
    intro s hd
    cases e with
    | execute config now =>
      have hd2 : (supervisorStep (SupervisorEv.execute config now)
          s).1.destroyed = true := by
        simp [supervisorStep, hd]
      have hout : (supervisorStep (SupervisorEv.execute config now) s).2 =
          some (ProcessSupervisor.failResult α
            "Process supervisor has been destroyed" config) := by
        simp [supervisorStep, hd]
      simp only [supervisorRun, List.map_cons]
      refine ⟨(ih _ hd2).1, ?_⟩
      rw [(ih _ hd2).2, hout]
    | procDone id env now =>
      have hd2 : (supervisorStep (SupervisorEv.procDone id env now)
          s).1.destroyed = true := hd
      simp only [supervisorRun, List.map_cons]
      refine ⟨(ih _ hd2).1, ?_⟩
      rw [(ih _ hd2).2]
      rfl
    | destroy =>
      have hd2 : (supervisorStep (SupervisorEv.destroy)
          s).1.destroyed = true := rfl
      simp only [supervisorRun, List.map_cons]
      refine ⟨(ih _ hd2).1, ?_⟩
      rw [(ih _ hd2).2]
      rfl

theorem supervisorRun_destroyed_frozen {α : Type}
    (cfgs : List (CLICommandConfig × Nat)) :
    ∀ s : SupervisorState α, s.destroyed = true →
    (supervisorRun (cfgs.map (fun p => SupervisorEv.execute p.1 p.2)) s).1 =
      s := by
  induction cfgs with
  | nil => intro s _; rfl
  | cons c rest ih =>
    intro s hd
    have hstep : (supervisorStep (SupervisorEv.execute c.1 c.2) s).1 = s := by
      simp [supervisorStep, hd]
    simp only [List.map_cons, supervisorRun, hstep]
    exact ih s hd

/-- C2: destroy() sets the destroyed latch; once the latch is set, it stays
set under every further event sequence, every subsequent execute() call —
arbitrarily many, arbitrarily interleaved — immediately returns the
destroyed failure envelope (success false, exitCode -1, duration 0), and a
run consisting solely of execute() calls leaves the supervisor state,
including the circuit breaker and the limiter, completely unchanged. -/
theorem processSupervisor_destroyed_latch (α : Type) (s : SupervisorState α)
    (hd : s.destroyed = true) :
    (∀ s0 : SupervisorState α,
      (supervisorStep SupervisorEv.destroy s0).1.destroyed = true) ∧
    (∀ evs : List (SupervisorEv α),
      (supervisorRun evs s).1.destroyed = true) ∧
    (∀ evs : List (SupervisorEv α),
      (supervisorRun evs s).2 = evs.map (fun e =>
        match e with
        | .execute config _ => some (ProcessSupervisor.failResult α
            "Process supervisor has been destroyed" config)
        | _ => none)) ∧
    (∀ cfgs : List (CLICommandConfig × Nat),
      (supervisorRun (cfgs.map (fun p => SupervisorEv.execute p.1 p.2))
        s).1 = s) ∧
    (∀ config : CLICommandConfig,
      (ProcessSupervisor.failResult α
        "Process supervisor has been destroyed" config).success = false ∧
      (ProcessSupervisor.failResult α
        "Process supervisor has been destroyed" config).exitCode = -1 ∧
      (ProcessSupervisor.failResult α
        "Process supervisor has been destroyed" config).duration = 0) := by
  refine ⟨fun s0 => rfl, fun evs => (supervisorRun_destroyed evs s hd).1,
    fun evs => (supervisorRun_destroyed evs s hd).2,
    fun cfgs => supervisorRun_destroyed_frozen cfgs s hd,
    fun config => ⟨rfl, rfl, rfl⟩⟩

/-- The supervisor state right after destroy() on a fresh supervisor, used
by the C2 witness. -/
def supAfterDestroy : SupervisorState Nat :=
  (supervisorStep SupervisorEv.destroy (supervisorInit Nat 1 5 15000)).1

/-- Witness for C2: after destroy(), two further execute() calls both
return the destroyed failure envelope and leave the state unchanged. -/
theorem processSupervisor_destroyed_latch_witness :
    supAfterDestroy.destroyed = true ∧
    (supervisorRun [SupervisorEv.execute cfgA 3, SupervisorEv.execute cfgA 4]
      supAfterDestroy).2 =
      [some (ProcessSupervisor.failResult Nat
        "Process supervisor has been destroyed" cfgA),
       some (ProcessSupervisor.failResult Nat
        "Process supervisor has been destroyed" cfgA)] ∧
    (supervisorRun [SupervisorEv.execute cfgA 3, SupervisorEv.execute cfgA 4]
      supAfterDestroy).1 = supAfterDestroy :=
  ⟨rfl,
   by
     rw [(processSupervisor_destroyed_latch Nat supAfterDestroy rfl).2.2.1
       [SupervisorEv.execute cfgA 3, SupervisorEv.execute cfgA 4]]
     rfl,
   (processSupervisor_destroyed_latch Nat supAfterDestroy rfl).2.2.2.1
     [(cfgA, 3), (cfgA, 4)]⟩

/-- Counterexample to C1 as stated: supervisor with maxConcurrency 1;
a blocker request is executing, a second request is queued at the limiter,
then destroy() is called.  destroy() clears the limiter queue, which
rejects the queued caller's promise with the error Queue cleared: the
promise returned by the second execute() settles by rejecting, not by
resolving to a CLIResult envelope. -/
theorem processSupervisor_execute_rejects_counterexample :
    (supervisorRun [SupervisorEv.execute cfgBlock 0,
        SupervisorEv.execute cfgA 0, SupervisorEv.destroy]
      (supervisorInit Nat 1 5 15000)).1.limiter.settled =
      [(1, Outcome.err "Queue cleared")] := by
  decide

/-! Settlement-shape lemmas for the limiter, feeding the amended C1. -/

theorem limiterSubmit_settled {α : Type} (config : CLICommandConfig)
    (s : LimiterState α) : (limiterSubmit config s).settled = s.settled := by
  unfold limiterSubmit
  split
  · rfl
  · rw [processQueue_settled]

theorem limiterSettle_settled_mem {α : Type} (id : Nat) (o : Outcome α)
    (s : LimiterState α) (p : Nat × Outcome α)
    (hp : p ∈ (limiterSettle id o s).settled) : p ∈ s.settled ∨ p.2 = o := by
  unfold limiterSettle at hp
  split at hp
  · exact Or.inl hp
  · rw [processQueue_settled] at hp
    simp only at hp
    rcases List.mem_append.mp hp with h1 | h1
    · exact Or.inl h1
    · rcases List.mem_cons.mp h1 with h2 | h2
      · exact Or.inr (by rw [h2])
      · rcases List.mem_map.mp h2 with ⟨a, _, ha⟩
        exact Or.inr (by rw [← ha])

theorem limiterClear_settled_mem {α : Type} (s : LimiterState α)
    (p : Nat × Outcome α) (hp : p ∈ (limiterClear s).settled) :
    p ∈ s.settled ∨ p.2 = Outcome.err "Queue cleared" := by
  unfold limiterClear at hp
  simp only at hp
  rcases List.mem_append.mp hp with h1 | h1
  · exact Or.inl h1
  · rcases List.mem_map.mp h1 with ⟨r, _, hr⟩
    exact Or.inr (by rw [← hr])

theorem supervisorRun_settled_ok {α : Type} (evs : List (SupervisorEv α)) :
    ∀ s : SupervisorState α,
    (∀ p ∈ s.limiter.settled, (∃ env, p.2 = Outcome.ok env) ∨
      p.2 = Outcome.err "Queue cleared") →
    ∀ p ∈ (supervisorRun evs s).1.limiter.settled,
      (∃ env, p.2 = Outcome.ok env) ∨ p.2 = Outcome.err "Queue cleared" := by
  induction evs with
  | nil => intro s hs; exact hs
  | cons e rest ih =>
    intro s hs
    have hrun : (supervisorRun (e :: rest) s).1 =
        (supervisorRun rest (supervisorStep e s).1).1 := rfl
    rw [hrun]
    apply ih
    cases e with
    | execute config now =>
      intro p hp
      by_cases hdes : s.destroyed = true
      · have hst : (supervisorStep (SupervisorEv.execute config now) s).1 =
            s := by
          simp [supervisorStep, hdes]
        rw [hst] at hp
        exact hs p hp
      · by_cases hcb : (s.circuitBreaker.canExecute now).2 = true
        · have hst : (supervisorStep (SupervisorEv.execute config now)
              s).1.limiter = limiterSubmit config s.limiter := by
            simp [supervisorStep, hdes, hcb]
          rw [hst, limiterSubmit_settled] at hp
          exact hs p hp
        · have hst : (supervisorStep (SupervisorEv.execute config now)
              s).1.limiter = s.limiter := by
            simp [supervisorStep, hdes, hcb]
          rw [hst] at hp
          exact hs p hp
    | procDone id env now =>
      intro p hp
      have hst : (supervisorStep (SupervisorEv.procDone id env now)
          s).1.limiter = limiterSettle id (Outcome.ok env) s.limiter := rfl
      rw [hst] at hp
      rcases limiterSettle_settled_mem id (Outcome.ok env) s.limiter p hp
        with h1 | h1
      · exact hs p h1
      · exact Or.inl ⟨env, h1⟩
    | destroy =>
      intro p hp
      have hst : (supervisorStep (SupervisorEv.destroy (α := α))
          s).1.limiter = limiterClear s.limiter := rfl
      rw [hst] at hp
      rcases limiterClear_settled_mem s.limiter p hp with h1 | h1
      · exact hs p h1
      · exact Or.inr h1

/-- C1 (amended): from a fresh supervisor, under every event sequence,
every settlement of a caller promise issued through the limiter either
resolves with a CLIResult envelope (the inner executor always resolves,
recording breaker success or failure, and never rejects) or — the one
exception the original claim misses — rejects with the fixed error Queue
cleared, which happens exactly to requests still queued at the limiter
when destroy() (or clear()) runs; the short-circuit paths return failure
envelopes, so no other rejection occurs. -/
theorem processSupervisor_settles_ok_or_queue_cleared (α : Type)
    (M th rt : Nat) (evs : List (SupervisorEv α))
    (p : Nat × Outcome (CLIResult α))
    (hp : p ∈ (supervisorRun evs
      (supervisorInit α M th rt)).1.limiter.settled) :
    (∃ env, p.2 = Outcome.ok env) ∨ p.2 = Outcome.err "Queue cleared" :=
  supervisorRun_settled_ok evs (supervisorInit α M th rt)
    (by intro q hq; simp [supervisorInit, limiterInit] at hq) p hp

/-- Witness for the amended C1 at the counterexample trace: the settlement
of caller 1 there is the Queue cleared rejection. -/
theorem processSupervisor_settles_ok_or_queue_cleared_witness :
    (∃ env, ((1 : Nat),
        (Outcome.err "Queue cleared" : Outcome (CLIResult Nat))).2 =
      Outcome.ok env) ∨
    ((1 : Nat), (Outcome.err "Queue cleared" : Outcome (CLIResult Nat))).2 =
      Outcome.err "Queue cleared" :=
  processSupervisor_settles_ok_or_queue_cleared Nat 1 5 15000
    [SupervisorEv.execute cfgBlock 0, SupervisorEv.execute cfgA 0,
     SupervisorEv.destroy]
    (1, Outcome.err "Queue cleared") (by decide)

/-! ## Stale-while-revalidate cache (src/cli/swrCache.ts)

The cache is modelled like the limiter: a state record holding the cache
map, the pendingRevalidations bookkeeping and, as observable history, the
log of fetcher invocations.  pendingRevalidations is represented as a list
of (key, ttlMs) marks — one mark per revalidation actually in flight — so
the claim that at most one revalidation per key is ever in flight is a
real property of the guard, not of the map type.  Events: a get() call,
the completion of a background revalidation, the completion of a
no-entry (foreground) fetch, and invalidate(). -/

/-- One cache entry of the source. -/
structure SWRCacheEntry (α : Type) where
  data : α
  fetchedAt : Nat
  ttl : Nat
deriving DecidableEq, Repr

/-- Full state of one SWRCache plus the fetcher invocation log. -/
structure SWRState (α : Type) where
  cache : List (String × SWRCacheEntry α)
  pendingRevalidations : List (String × Nat)
  fetchLog : List String
deriving DecidableEq, Repr

/-- What one get() call returns: a fresh hit, a stale hit (returned
immediately while revalidation may run in the background), or a miss
(the caller awaits the fetcher directly). -/
inductive SWRGetResult (α : Type)
  | fresh (v : α)
  | stale (v : α)
  | miss
deriving DecidableEq, Repr

/-- The synchronous part of get(key, ttlMs, fetcher): a fresh entry is
returned immediately; an expired entry is returned immediately as well,
and if no revalidation for this key is in flight one background fetch is
started (logged, and marked pending with the ttl it will store); with no
entry the fetcher is invoked and awaited by the caller. -/
def SWRCache.getStep {α : Type} (key : String) (ttlMs : Nat) (now : Nat)
    (s : SWRState α) : SWRState α × SWRGetResult α :=
  match mapLookup key s.cache with
  | some entry =>
    if (now : Int) - (entry.fetchedAt : Int) < (entry.ttl : Int) then
      (s, .fresh entry.data)
    else
      if (mapLookup key s.pendingRevalidations).isSome then
        (s, .stale entry.data)
      else
        ({ s with
            pendingRevalidations := s.pendingRevalidations ++ [(key, ttlMs)],
            fetchLog := s.fetchLog ++ [key] }, .stale entry.data)
  | none =>
    ({ s with fetchLog := s.fetchLog ++ [key] }, .miss)

/-- Remove the first pending mark with the given key. -/
def removeFirstKey {β : Type} (k : String) :
    List (String × β) → List (String × β)
  | [] => []
  | p :: rest => if p.1 = k then rest else p :: removeFirstKey k rest

/-- The completion of a background revalidation for a key: on success the
cache entry is overwritten with the fresh data, the current timestamp and
the ttl captured when the revalidation started; in every case the pending
mark is cleared. -/
def swrRevalidationDone {α : Type} (key : String) (now : Nat)
    (result : Option α) (s : SWRState α) : SWRState α :=
  match mapLookup key s.pendingRevalidations with
  | none => s
  | some ttlMs =>
    { s with
      cache :=
        match result with
        | some d =>
          mapInsert key { data := d, fetchedAt := now, ttl := ttlMs } s.cache
        | none => s.cache,
      pendingRevalidations := removeFirstKey key s.pendingRevalidations }

/-- invalidate(key): drop one entry. -/
def SWRCache.invalidate {α : Type} (key : String) (s : SWRState α) :
    SWRState α :=
  { s with cache := mapEraseKey key s.cache }

/-- clear(): drop every entry and all revalidation bookkeeping. -/
def SWRCache.clear {α : Type} (s : SWRState α) : SWRState α :=
  { s with cache := [], pendingRevalidations := [] }

/-- Events of the get/fetch-completion/invalidate alphabet the C9 claim
quantifies over (racing stale reads and their background fetches). -/
inductive SWREv (α : Type)
  | get (key : String) (ttlMs : Nat) (now : Nat)
  | revalidationDone (key : String) (now : Nat) (result : Option α)
  | missFetchDone (key : String) (ttlMs : Nat) (now : Nat) (d : α)
  | invalidate (key : String)

/-- One cache step. -/
def swrStep {α : Type} (e : SWREv α) (s : SWRState α) : SWRState α :=
  match e with
  | .get key ttlMs now => (SWRCache.getStep key ttlMs now s).1
  | .revalidationDone key now result => swrRevalidationDone key now result s
  | .missFetchDone key ttlMs now d =>
    { s with
      cache :=
        mapInsert key { data := d, fetchedAt := now, ttl := ttlMs } s.cache }
  | .invalidate key => SWRCache.invalidate key s

/-- Run a sequence of cache events. -/
def swrRun {α : Type} (evs : List (SWREv α)) (s : SWRState α) : SWRState α :=
  evs.foldl (fun s e => swrStep e s) s

/-- A freshly constructed cache. -/
def swrInit (α : Type) : SWRState α :=
  { cache := [], pendingRevalidations := [], fetchLog := [] }

/-- Number of pending revalidation marks for one key. -/
def countKey {β : Type} (k : String) : List (String × β) → Nat
  | [] => 0
  | p :: rest => (if p.1 = k then 1 else 0) + countKey k rest

/-! Counting lemmas for the pending marks. -/

theorem mapLookup_none_countKey {β : Type} (k : String) :
    ∀ m : List (String × β), mapLookup k m = none → countKey k m = 0 := by
  intro m
  induction m with
  | nil => intro _; rfl
  | cons p rest ih =>
    intro h
    unfold mapLookup at h
    unfold countKey
    split at h
    · cases h
    · rename_i hk
      rw [if_neg hk, ih h]

theorem countKey_cons {β : Type} (k : String) (p : String × β)
    (l : List (String × β)) :
    countKey k (p :: l) = (if p.1 = k then 1 else 0) + countKey k l := rfl

theorem countKey_append {β : Type} (k : String)
    (m n : List (String × β)) :
    countKey k (m ++ n) = countKey k m + countKey k n := by
  induction m with
  | nil => simp [countKey]
  | cons p rest ih =>
    rw [List.cons_append, countKey_cons, countKey_cons, ih]
    omega

theorem countKey_removeFirstKey_le {β : Type} (k k2 : String) :
    ∀ m : List (String × β),
    countKey k (removeFirstKey k2 m) ≤ countKey k m := by
  intro m
  induction m with
  | nil => exact Nat.le_refl _
  | cons p rest ih =>
    unfold removeFirstKey
    split
    · rw [countKey_cons]
      omega
    · rw [countKey_cons, countKey_cons]
      omega

/-- The pending marks a get() call leaves behind: either untouched, or —
only when no revalidation for the key was in flight — exactly one new mark
for that key. -/
theorem getStep_pending {α : Type} (key : String) (ttlMs now : Nat)
    (s : SWRState α) :
    (SWRCache.getStep key ttlMs now s).1.pendingRevalidations =
      s.pendingRevalidations ∨
    ((SWRCache.getStep key ttlMs now s).1.pendingRevalidations =
      s.pendingRevalidations ++ [(key, ttlMs)] ∧
     mapLookup key s.pendingRevalidations = none) := by
  rcases hc : mapLookup key s.cache with _ | entry
  · have h1 : SWRCache.getStep key ttlMs now s =
        ({ s with fetchLog := s.fetchLog ++ [key] },
         SWRGetResult.miss) := by
      unfold SWRCache.getStep
      rw [hc]
    rw [h1]
    exact Or.inl rfl
  · by_cases hage : (now : Int) - (entry.fetchedAt : Int) <
        (entry.ttl : Int)
    · have h1 : SWRCache.getStep key ttlMs now s =
          (s, SWRGetResult.fresh entry.data) := by
        unfold SWRCache.getStep
        rw [hc]
        simp only [if_pos hage]
      rw [h1]
      exact Or.inl rfl
    · rcases hp : mapLookup key s.pendingRevalidations with _ | t
      · have h1 : SWRCache.getStep key ttlMs now s =
            ({ s with
                pendingRevalidations :=
                  s.pendingRevalidations ++ [(key, ttlMs)],
                fetchLog := s.fetchLog ++ [key] },
             SWRGetResult.stale entry.data) := by
          unfold SWRCache.getStep
          rw [hc]
          simp only [if_neg hage, hp, Option.isSome_none,
            Bool.false_eq_true, if_false]
        rw [h1]
        exact Or.inr ⟨rfl, rfl⟩
      · have h1 : SWRCache.getStep key ttlMs now s =
            (s, SWRGetResult.stale entry.data) := by
          unfold SWRCache.getStep
          rw [hc]
          simp only [if_neg hage, hp, Option.isSome_some, if_true]
        rw [h1]
        exact Or.inl rfl

theorem swrPending_step {α : Type} (e : SWREv α) (s : SWRState α)
    (h : ∀ k, countKey k s.pendingRevalidations ≤ 1) :
    ∀ k, countKey k (swrStep e s).pendingRevalidations ≤ 1 := by
  intro k
  cases e with
  | get key ttlMs now =>
    rcases getStep_pending key ttlMs now s with h1 | ⟨h1, h2⟩
    · simp only [swrStep, h1]
      exact h k
    · simp only [swrStep, h1, countKey_append]
      by_cases hk : key = k
      · subst hk
        rw [mapLookup_none_countKey key s.pendingRevalidations h2]
        simp [countKey]
      · have h0 : countKey k [(key, ttlMs)] = 0 := by
          simp [countKey, hk]
        have hhk := h k
        omega
  | revalidationDone key now result =>
    simp only [swrStep]
    unfold swrRevalidationDone
    split
    · exact h k
    · simp only
      exact le_trans (countKey_removeFirstKey_le k key _) (h k)
  | missFetchDone key ttlMs now d => exact h k
  | invalidate key => exact h k

theorem swrPending_run {α : Type} (evs : List (SWREv α)) :
    ∀ s : SWRState α, (∀ k, countKey k s.pendingRevalidations ≤ 1) →
    ∀ k, countKey k (swrRun evs s).pendingRevalidations ≤ 1 := by
  induction evs with
  | nil => intro s h; exact h
  | cons e rest ih =>
    intro s h
    simp only [swrRun, List.foldl_cons] at ih ⊢
    exact ih (swrStep e s) (swrPending_step e s h)

/-- C9: a get() on an expired entry (age at least the stored ttl) returns
the previously cached stale value immediately; if a revalidation for the
key is already in flight the call changes nothing at all — in particular
the fetcher is not invoked again; and over every sequence of get,
fetch-completion and invalidate events from a fresh cache, at most one
background revalidation per key is in flight at any time, however many
stale reads race. -/
theorem swrCache_stale_behavior (α : Type) :
    (∀ (s : SWRState α) (key : String) (ttlMs now : Nat)
       (entry : SWRCacheEntry α),
       mapLookup key s.cache = some entry →
       (now : Int) - (entry.fetchedAt : Int) ≥ (entry.ttl : Int) →
       (SWRCache.getStep key ttlMs now s).2 =
         SWRGetResult.stale entry.data) ∧
    (∀ (s : SWRState α) (key : String) (ttlMs now : Nat)
       (entry : SWRCacheEntry α),
       mapLookup key s.cache = some entry →
       (now : Int) - (entry.fetchedAt : Int) ≥ (entry.ttl : Int) →
       (mapLookup key s.pendingRevalidations).isSome = true →
       SWRCache.getStep key ttlMs now s = (s, SWRGetResult.stale entry.data)) ∧
    (∀ (s : SWRState α) (key : String) (ttlMs now : Nat)
       (entry : SWRCacheEntry α),
       mapLookup key s.cache = some entry →
       (now : Int) - (entry.fetchedAt : Int) ≥ (entry.ttl : Int) →
       mapLookup key s.pendingRevalidations = none →
       SWRCache.getStep key ttlMs now s =
         ({ s with
             pendingRevalidations :=
               s.pendingRevalidations ++ [(key, ttlMs)],
             fetchLog := s.fetchLog ++ [key] },
          SWRGetResult.stale entry.data)) ∧
    (∀ (evs : List (SWREv α)) (k : String),
       countKey k (swrRun evs (swrInit α)).pendingRevalidations ≤ 1) := by
  refine ⟨?_, ?_, ?_, ?_⟩
  · intro s key ttlMs now entry hentry hage
    unfold SWRCache.getStep
    simp only [hentry]
    rw [if_neg (by omega)]
    split <;> rfl
  · intro s key ttlMs now entry hentry hage hpend
    unfold SWRCache.getStep
    simp only [hentry]
    rw [if_neg (by omega), if_pos hpend]
  · intro s key ttlMs now entry hentry hage hpend
    unfold SWRCache.getStep
    simp only [hentry]
    rw [if_neg (by omega), if_neg (by rw [hpend]; simp)]
  · intro evs k
    exact swrPending_run evs (swrInit α) (fun _ => Nat.le_refl 0 |>.trans
      (Nat.zero_le 1)) k

/-- Concrete cache state for the C9 witness: one entry fetched at 1000
with ttl 5000 and no revalidation in flight. -/
def swrW : SWRState Nat :=
  { cache := [("k", { data := 5, fetchedAt := 1000, ttl := 5000 })],
    pendingRevalidations := [], fetchLog := [] }

/-- The same state with a revalidation for the key already in flight. -/
def swrWPending : SWRState Nat :=
  { cache := [("k", { data := 5, fetchedAt := 1000, ttl := 5000 })],
    pendingRevalidations := [("k", 5000)], fetchLog := [] }

/-- Witness for C9 at ttl 5000 and elapsed 6000: the stale read returns
the previous value 5; when a revalidation is already in flight the read
changes nothing; when none is, it starts exactly one logged fetch. -/
theorem swrCache_stale_behavior_witness :
    (SWRCache.getStep "k" 5000 7000 swrW).2 = SWRGetResult.stale 5 ∧
    SWRCache.getStep "k" 5000 7000 swrWPending =
      (swrWPending, SWRGetResult.stale 5) ∧
    SWRCache.getStep "k" 5000 7000 swrW =
      ({ swrW with pendingRevalidations := [("k", 5000)],
                   fetchLog := ["k"] }, SWRGetResult.stale 5) ∧
    countKey "k" (swrRun [SWREv.get "k" 5000 7000, SWREv.get "k" 5000 7001]
      (swrInit Nat)).pendingRevalidations ≤ 1 := by
  refine ⟨?_, ?_, ?_, ?_⟩
  · exact (swrCache_stale_behavior Nat).1 swrW "k" 5000 7000
      { data := 5, fetchedAt := 1000, ttl := 5000 } (by decide) (by decide)
  · exact (swrCache_stale_behavior Nat).2.1 swrWPending "k" 5000 7000
      { data := 5, fetchedAt := 1000, ttl := 5000 } (by decide) (by decide)
      (by decide)
  · exact (swrCache_stale_behavior Nat).2.2.1 swrW "k" 5000 7000
      { data := 5, fetchedAt := 1000, ttl := 5000 } (by decide) (by decide)
      (by decide)
  · exact (swrCache_stale_behavior Nat).2.2.2
      [SWREv.get "k" 5000 7000, SWREv.get "k" 5000 7001] "k"
